import Mathlib

/-!
Verification of the `pbatch` bounded-parallelism batch executor (src/lib.go).

The Go code is embedded as a small-step state machine: the main goroutine
(the `for i, item := range items` loop of `Run`, with its semaphore acquire,
its `StopOnError` early-exit check, the `wg.Wait()` joins and the final
return) and each spawned worker goroutine are modelled as atomically executed
steps, and a run is driven by an explicit schedule (a list of choices of
which goroutine steps next).  A worker's whole body (process the item, report
the outcome under the mutex / to the error channel, release the semaphore
slot, `wg.Done()`) is one atomic step: between the spawn of a worker and that
step, no shared state is touched by the worker, so this granularity preserves
every observable interleaving of the shared-state operations.

Go errors are modelled by their message string: every error the engine itself
creates comes from `errors.New`, which carries exactly a message, and the only
operation the engine applies to a caller-supplied error is `err.Error()`.

The field `reported` of the state is a history variable (a ghost log of the
`StopOnError` error reports in the order the `select { case errChan <- err }`
sends happened); no step reads it, so it does not influence behaviour.
-/

set_option maxHeartbeats 1000000

namespace PBatch

/-- Go `error` values as produced by `errors.New`: only the message is carried. -/
abbrev GoErr := String

/-- `type errorHandler bool` from src/lib.go. -/
abbrev errorHandler := Bool

/-- `STOP_ON_ERROR errorHandler = true` from src/lib.go. -/
def STOP_ON_ERROR : errorHandler := true

/-- `CONTINUE_ON_ERROR errorHandler = false` from src/lib.go. -/
def CONTINUE_ON_ERROR : errorHandler := false

/-- `aggregateErrors` from src/lib.go: collects `err.Error()` for each error and
returns `errors.New("multiple errors: " + strings.Join(errStrings, "; "))`. -/
def aggregateErrors (errs : List GoErr) : GoErr :=
  "multiple errors: " ++ String.intercalate "; " errs

/-- Status of one spawned-per-item worker goroutine. -/
inductive TaskStatus : Type
  | notSpawned
  | running
  | done
  deriving DecidableEq

/-- Program counter of the main goroutine of `Run`.
`loop i`: about to execute the loop iteration for item `i` (acquire + spawn),
or to leave the loop when `i = len(items)`.
`check i`: `StopOnError` only, the non-blocking `select` on `errChan` right
after spawning the worker for item `i`.
`earlyWait e`: the early-exit path `case err := <-errChan: wg.Wait(); return nil, err`.
`finalWait`: the `wg.Wait()` after the loop followed by the final returns.
`returned res err`: `Run` has returned `(res, err)`; `res = none` models a
`nil` result slice. -/
inductive MainPC (R : Type) : Type
  | loop (i : Nat)
  | check (i : Nat)
  | earlyWait (e : GoErr)
  | finalWait
  | returned (res : Option (List R)) (err : Option GoErr)
  deriving DecidableEq

/-- The shared state of one invocation of `Run`.
`sem` is the number of occupied slots of `semaphore := make(chan struct{}, batchSize)`;
`results` is the `results := make([]R, len(items))` slice;
`errQ` is the buffer of `errChan := make(chan error, len(items))`;
`allErrors` is the `StopOnError`-unused `var allErrors []error`;
`reported` is the ghost log of `errChan` sends (see the file comment). -/
structure St (R : Type) : Type where
  pc : MainPC R
  tasks : List TaskStatus
  sem : Nat
  results : List R
  errQ : List GoErr
  allErrors : List GoErr
  reported : List GoErr
  deriving DecidableEq

/-- The arguments of one invocation of `Run` (generic over item type `T` and
result type `R`).  `rzero` is the zero value of `R`, used to pre-initialize
the results slice.  `process` returns the pair that the Go function returns;
a `some` second component is a non-nil error. -/
structure Cfg (T R : Type) : Type where
  items : List T
  batchSize : Nat
  handleErrorStrategy : errorHandler
  process : T → R × Option GoErr
  rzero : R

variable {T R : Type}

def isRunningT : TaskStatus → Bool
  | .running => true
  | _ => false

def isDoneT : TaskStatus → Bool
  | .done => true
  | _ => false

def isNotSpawnedT : TaskStatus → Bool
  | .notSpawned => true
  | _ => false

def isDoneO : Option TaskStatus → Bool
  | some .done => true
  | _ => false

def isNotSpawnedO : Option TaskStatus → Bool
  | some .notSpawned => true
  | _ => false

/-- The error that `process` returns for the item at index `j` (`none` if the
call succeeds or `j` is out of range). -/
def itemErr (cfg : Cfg T R) (j : Nat) : Option GoErr :=
  match cfg.items.get? j with
  | some it => (cfg.process it).2
  | none => none

/-- The result value that `process` returns for the item at index `j`
(`rzero` if `j` is out of range). -/
def itemValD (cfg : Cfg T R) (j : Nat) : R :=
  match cfg.items.get? j with
  | some it => (cfg.process it).1
  | none => cfg.rzero

/-- Initial state of `Run`: nothing spawned, the results slice holds zero
values, both error stores are empty, the main goroutine is at the top of the
loop. -/
def initSt (cfg : Cfg T R) : St R :=
  { pc := .loop 0
    tasks := List.replicate cfg.items.length .notSpawned
    sem := 0
    results := List.replicate cfg.items.length cfg.rzero
    errQ := []
    allErrors := []
    reported := [] }

/-- One step of the main goroutine, `none` when it is blocked (semaphore full,
or a `wg.Wait()` with workers still running) or already returned. -/
def mainStep (cfg : Cfg T R) (s : St R) : Option (St R) :=
  match s.pc with
  | .loop i =>
      if i < cfg.items.length then
        -- `semaphore <- struct{}{}` blocks while the buffer is full,
        -- then `wg.Add(1)` and `go func(i, item)` spawn the worker.
        if s.sem < cfg.batchSize then
          some { s with
            sem := s.sem + 1
            tasks := s.tasks.set i .running
            pc := if cfg.handleErrorStrategy = STOP_ON_ERROR then .check i
                  else .loop (i + 1) }
        else none
      else some { s with pc := .finalWait }
  | .check i =>
      -- non-blocking `select { case err := <-errChan: ... default: }`
      match s.errQ with
      | [] => some { s with pc := .loop (i + 1) }
      | e :: rest => some { s with errQ := rest, pc := .earlyWait e }
  | .earlyWait e =>
      -- `wg.Wait(); return nil, err`
      if s.tasks.countP isRunningT = 0 then
        some { s with pc := .returned none (some e) }
      else none
  | .finalWait =>
      -- `wg.Wait()` then the final policy-dependent returns.
      if s.tasks.countP isRunningT = 0 then
        if cfg.handleErrorStrategy = STOP_ON_ERROR then
          match s.errQ with
          | e :: rest => some { s with errQ := rest, pc := .returned none (some e) }
          | [] => some { s with pc := .returned (some s.results) none }
        else
          if s.allErrors = [] then
            some { s with pc := .returned (some s.results) none }
          else
            some { s with pc := .returned (some s.results)
                                          (some (aggregateErrors s.allErrors)) }
      else none
  | .returned _ _ => none

/-- One (atomic) step of the worker goroutine for item `i`: process the item,
then on error either a non-blocking send on `errChan` (`StopOnError`) or a
mutex-protected append to `allErrors` (`ContinueOnError`), on success a
mutex-protected `results[i] = result`; finally release the semaphore slot and
`wg.Done()`.  `none` if no such worker is currently running. -/
def taskStep (cfg : Cfg T R) (s : St R) (i : Nat) : Option (St R) :=
  match s.tasks.get? i, cfg.items.get? i with
  | some .running, some item =>
      let pr := cfg.process item
      let s1 : St R :=
        match pr.2 with
        | none => { s with results := s.results.set i pr.1 }
        | some e =>
            if cfg.handleErrorStrategy = STOP_ON_ERROR then
              { s with
                errQ := if s.errQ.length < cfg.items.length then s.errQ ++ [e]
                        else s.errQ
                reported := s.reported ++ [e] }
            else { s with allErrors := s.allErrors ++ [e] }
      some { s1 with tasks := s.tasks.set i .done, sem := s.sem - 1 }
  | _, _ => none

/-- A scheduling choice: let the main goroutine step, or let worker `i` step. -/
inductive Choice : Type
  | main
  | task (i : Nat)
  deriving DecidableEq

def step (cfg : Cfg T R) (s : St R) : Choice → Option (St R)
  | .main => mainStep cfg s
  | .task i => taskStep cfg s i

/-- Total version of `step`: a disabled choice leaves the state unchanged. -/
def stepD (cfg : Cfg T R) (s : St R) (c : Choice) : St R :=
  (step cfg s c).getD s

def runFrom (cfg : Cfg T R) (s : St R) (sched : List Choice) : St R :=
  sched.foldl (stepD cfg) s

/-- The state of the invocation `Run(items, batchSize, strategy, process)`
after the scheduler has driven it with the given schedule. -/
def run (cfg : Cfg T R) (sched : List Choice) : St R :=
  runFrom cfg (initSt cfg) sched

/-- The `(results, error)` pair returned by `Run`, if the run has returned
(`none` for the results component models a `nil` slice). -/
def outcome (s : St R) : Option (Option (List R) × Option GoErr) :=
  match s.pc with
  | .returned res err => some (res, err)
  | _ => none

/-- The errors of the failing items, in index order: the failing subset `F`. -/
def failuresList (cfg : Cfg T R) : List GoErr :=
  (List.range cfg.items.length).filterMap (fun j => itemErr cfg j)

/-- Whether some item fails. -/
def hasFailure (cfg : Cfg T R) : Bool :=
  (List.range cfg.items.length).any (fun j => (itemErr cfg j).isSome)

/-- The results slice as `ContinueOnError` fills it: the computed value at
succeeding indices, the zero value at failing indices. -/
def goodResults (cfg : Cfg T R) : List R :=
  cfg.items.map (fun x =>
    match (cfg.process x).2 with
    | none => (cfg.process x).1
    | some _ => cfg.rzero)

/-- The `Cfg` built by `Process` from src/lib.go: `Run` with `STOP_ON_ERROR`
and the wrapper `func(item T) (struct{}, error) { return struct{}{}, process(item) }`. -/
def ProcessCfg (items : List T) (batchSize : Nat) (process : T → Option GoErr) :
    Cfg T Unit :=
  { items := items
    batchSize := batchSize
    handleErrorStrategy := STOP_ON_ERROR
    process := fun item => ((), process item)
    rzero := () }

/-- `Process` from src/lib.go: it calls `Run` on `ProcessCfg` and returns only
the error component. -/
def ProcessRun (items : List T) (batchSize : Nat) (process : T → Option GoErr)
    (sched : List Choice) : Option GoErr :=
  match outcome (run (ProcessCfg items batchSize process) sched) with
  | some (_, err) => err
  | none => none

/-- Entering `Run` with an `int` batch size: `make(chan struct{}, batchSize)`
panics when the capacity is negative, otherwise the machine starts.  `none`
models the panic. -/
def RunStart (items : List T) (batchSize : Int) (strategy : errorHandler)
    (process : T → R × Option GoErr) (rzero : R) : Option (Cfg T R) :=
  if batchSize < 0 then none
  else some { items := items
              batchSize := batchSize.toNat
              handleErrorStrategy := strategy
              process := process
              rzero := rzero }

/-- Number of tasks spawned so far. -/
def scheduledCount (s : St R) : Nat :=
  s.tasks.countP (fun t => ! isNotSpawnedT t)

@[simp] theorem STOP_ON_ERROR_def : STOP_ON_ERROR = true := rfl

@[simp] theorem CONTINUE_ON_ERROR_def : CONTINUE_ON_ERROR = false := rfl

/-! ## Auxiliary list lemmas -/

section ListLemmas

variable {α β : Type*}

theorem lget_set_self (l : List α) (i : Nat) (a : α) (h : i < l.length) :
    (l.set i a).get? i = some a := by
  rw [List.get?_eq_getElem?, List.getElem?_set_eq_of_lt a h]

theorem lget_set_ne {l : List α} {i j : Nat} {a : α} (h : i ≠ j) :
    (l.set i a).get? j = l.get? j := by
  rw [List.get?_eq_getElem?, List.get?_eq_getElem?, List.getElem?_set_ne h]

theorem lget_replicate (a : α) (n j : Nat) :
    (List.replicate n a).get? j = if j < n then some a else none := by
  rw [List.get?_eq_getElem?, List.getElem?_replicate]

theorem lget_lt {l : List α} {i : Nat} {a : α} (h : l.get? i = some a) :
    i < l.length := by
  by_contra hcon
  push_neg at hcon
  rw [List.get?_len_le hcon] at h
  cases h

theorem lget_exists {l : List α} {i : Nat} (h : i < l.length) :
    ∃ a, l.get? i = some a := by
  cases hg : l.get? i with
  | none =>
      have := List.get?_eq_none.mp hg
      omega
  | some a => exact ⟨a, rfl⟩

theorem countP_set_pair (l : List α) (p : α → Bool) (i : Nat) (a b : α)
    (h : l.get? i = some a) :
    (l.set i b).countP p + (if p a then 1 else 0) =
      l.countP p + (if p b then 1 else 0) := by
  induction l generalizing i with
  | nil => cases h
  | cons x xs ih =>
      cases i with
      | zero =>
          rw [List.get?_cons_zero] at h
          injection h with h
          subst h
          simp [List.countP_cons]
          omega
      | succ n =>
          rw [List.get?_cons_succ] at h
          have := ih n h
          simp [List.set, List.countP_cons]
          omega

theorem countP_zero_mem {l : List α} {p : α → Bool} (h : l.countP p = 0) {a : α}
    (ha : a ∈ l) : p a = false := by
  have := List.countP_eq_zero.mp h a ha
  simpa using this

theorem countP_lt_of_mem {l : List α} {p : α → Bool} {a : α} (ha : a ∈ l)
    (hp : p a = false) : l.countP p < l.length := by
  by_contra hcon
  push_neg at hcon
  have hle := List.countP_le_length (p := p) (l := l)
  have heq : l.countP p = l.length := le_antisymm hle hcon
  have hall := List.countP_eq_length.mp heq a ha
  rw [hp] at hall
  simp at hall

theorem countP_pos_get? {l : List α} {p : α → Bool} {i : Nat} {a : α}
    (h : l.get? i = some a) (hp : p a = true) : 0 < l.countP p := by
  have hm : a ∈ l := List.get?_mem h
  by_contra hcon
  push_neg at hcon
  have : l.countP p = 0 := by omega
  have := countP_zero_mem this hm
  rw [hp] at this
  cases this

theorem eq_singleton_of_mem_len_le {l : List α} {a : α} (ha : a ∈ l)
    (hl : l.length ≤ 1) : l = [a] := by
  cases l with
  | nil => cases ha
  | cons x xs =>
      cases xs with
      | nil =>
          rcases ha with _ | ⟨_, h⟩
          · rfl
          · cases h
      | cons y ys => simp at hl

theorem filter_flip (f g : Nat → Bool) (i n : Nat) (hi : i < n) (hfi : f i = false)
    (hgi : g i = true) (hfg : ∀ j, j ≠ i → f j = g j) :
    ∃ A B, (List.range n).filter f = A ++ B ∧
      (List.range n).filter g = A ++ i :: B := by
  induction n with
  | zero => omega
  | succ n ih =>
      rw [List.range_succ, List.filter_append, List.filter_append]
      by_cases hin : i = n
      · subst hin
        refine ⟨(List.range i).filter f, [], ?_, ?_⟩
        · simp [List.filter, hfi]
        · have hcong : (List.range i).filter g = (List.range i).filter f := by
            apply List.filter_congr
            intro j hj
            have hj' : j ≠ i := by
              have := List.mem_range.mp hj
              omega
            exact (hfg j hj').symm
          simp [hcong, List.filter, hgi]
      · have hi' : i < n := by omega
        obtain ⟨A, B, hA, hB⟩ := ih hi'
        refine ⟨A, B ++ List.filter f [n], ?_, ?_⟩
        · rw [hA, List.append_assoc]
        · have hsing : List.filter g [n] = List.filter f [n] := by
            have := hfg n (fun hc => hin hc.symm)
            simp [List.filter, this]
          rw [hB, hsing, List.append_assoc, List.cons_append]

end ListLemmas

/-! ## The run invariant -/

def spawnedBelow (cfg : Cfg T R) (ts : List TaskStatus) (k : Nat) : Prop :=
  ∀ j, j < cfg.items.length → (isNotSpawnedO (ts.get? j) = true ↔ k ≤ j)

/-- What the results slice must hold at index `j`: the computed value once the
worker is done and succeeded, the zero value otherwise. -/
def slotExpected (cfg : Cfg T R) (ts : List TaskStatus) (j : Nat) : R :=
  if isDoneO (ts.get? j) && (itemErr cfg j).isNone then itemValD cfg j else cfg.rzero

/-- The errors of the items whose worker is done and failed, in index order. -/
def doneFailedErrs (cfg : Cfg T R) (ts : List TaskStatus) : List GoErr :=
  ((List.range cfg.items.length).filter (fun j => isDoneO (ts.get? j))).filterMap
    (fun j => itemErr cfg j)

/-- What holds of a state whose main goroutine has returned `(res, err)`. -/
def RetInv (cfg : Cfg T R) (s : St R) (res : Option (List R))
    (err : Option GoErr) : Prop :=
  s.tasks.countP isRunningT = 0 ∧
  (spawnedBelow cfg s.tasks cfg.items.length ∨ s.reported ≠ []) ∧
  (cfg.handleErrorStrategy = STOP_ON_ERROR →
    match s.reported with
    | [] => res = some s.results ∧ err = none ∧ s.errQ = []
    | e :: rest => res = none ∧ err = some e ∧ s.errQ = rest) ∧
  (cfg.handleErrorStrategy = CONTINUE_ON_ERROR →
    spawnedBelow cfg s.tasks cfg.items.length ∧ res = some s.results ∧
    err = (match s.allErrors with
           | [] => none
           | _ :: _ => some (aggregateErrors s.allErrors)))

/-- The part of the invariant that depends on the main goroutine's position. -/
def PcInv (cfg : Cfg T R) (s : St R) : MainPC R → Prop
  | .loop i => i ≤ cfg.items.length ∧ spawnedBelow cfg s.tasks i ∧
      s.errQ = s.reported
  | .check i => i < cfg.items.length ∧ spawnedBelow cfg s.tasks (i + 1) ∧
      cfg.handleErrorStrategy = STOP_ON_ERROR ∧ s.errQ = s.reported
  | .earlyWait e => cfg.handleErrorStrategy = STOP_ON_ERROR ∧
      s.reported.head? = some e ∧ s.errQ = s.reported.drop 1
  | .finalWait => spawnedBelow cfg s.tasks cfg.items.length ∧ s.errQ = s.reported
  | .returned res err => RetInv cfg s res err

/-- The inductive invariant of the machine. -/
structure Inv (cfg : Cfg T R) (s : St R) : Prop where
  lenT : s.tasks.length = cfg.items.length
  lenR : s.results.length = cfg.items.length
  semEq : s.sem = s.tasks.countP isRunningT
  semLe : s.sem ≤ cfg.batchSize
  resChar : ∀ j, j < cfg.items.length →
      s.results.get? j = some (slotExpected cfg s.tasks j)
  stopAllNil : cfg.handleErrorStrategy = STOP_ON_ERROR → s.allErrors = []
  stopPerm : cfg.handleErrorStrategy = STOP_ON_ERROR →
      s.reported.Perm (doneFailedErrs cfg s.tasks)
  contQNil : cfg.handleErrorStrategy = CONTINUE_ON_ERROR →
      s.errQ = [] ∧ s.reported = []
  contPerm : cfg.handleErrorStrategy = CONTINUE_ON_ERROR →
      s.allErrors.Perm (doneFailedErrs cfg s.tasks)
  pcOk : PcInv cfg s s.pc

/-! ## Facts about the status predicates and `doneFailedErrs` -/

theorem isNotSpawnedO_eq_some {o : Option TaskStatus} (h : isNotSpawnedO o = true) :
    o = some TaskStatus.notSpawned := by
  cases o with
  | none => simp [isNotSpawnedO] at h
  | some t =>
      cases t with
      | notSpawned => rfl
      | running => simp [isNotSpawnedO] at h
      | done => simp [isNotSpawnedO] at h

theorem isNotSpawnedO_set_done {ts : List TaskStatus} {i : Nat}
    (hti : ts.get? i = some TaskStatus.running) (j : Nat) :
    isNotSpawnedO ((ts.set i .done).get? j) = isNotSpawnedO (ts.get? j) := by
  by_cases hij : i = j
  · subst hij
    rw [lget_set_self _ _ _ (lget_lt hti), hti]
    rfl
  · rw [lget_set_ne hij]

theorem spawnedBelow_set_done {cfg : Cfg T R} {ts : List TaskStatus} {i k : Nat}
    (hti : ts.get? i = some TaskStatus.running)
    (h : spawnedBelow cfg ts k) : spawnedBelow cfg (ts.set i .done) k := by
  intro j hj
  rw [isNotSpawnedO_set_done hti]
  exact h j hj

theorem dfe_set_done_none {cfg : Cfg T R} {ts : List TaskStatus} {i : Nat}
    (hlen : ts.length = cfg.items.length)
    (hti : ts.get? i = some TaskStatus.running)
    (hie : itemErr cfg i = none) :
    doneFailedErrs cfg (ts.set i .done) = doneFailedErrs cfg ts := by
  have hi : i < cfg.items.length := by
    have := lget_lt hti
    omega
  obtain ⟨A, B, hf, hg⟩ := filter_flip (fun j => isDoneO (ts.get? j))
      (fun j => isDoneO ((ts.set i .done).get? j)) i cfg.items.length hi
      (by simp only [hti]; rfl)
      (by simp only [lget_set_self _ _ _ (lget_lt hti)]; rfl)
      (fun j hj => by simp only [lget_set_ne (Ne.symm hj)])
  unfold doneFailedErrs
  rw [hf, hg, List.filterMap_append, List.filterMap_append,
    List.filterMap_cons_none (by simpa using hie)]

theorem dfe_set_done_some {cfg : Cfg T R} {ts : List TaskStatus} {i : Nat} {e : GoErr}
    (hlen : ts.length = cfg.items.length)
    (hti : ts.get? i = some TaskStatus.running)
    (hie : itemErr cfg i = some e) :
    (doneFailedErrs cfg (ts.set i .done)).Perm (doneFailedErrs cfg ts ++ [e]) := by
  have hi : i < cfg.items.length := by
    have := lget_lt hti
    omega
  obtain ⟨A, B, hf, hg⟩ := filter_flip (fun j => isDoneO (ts.get? j))
      (fun j => isDoneO ((ts.set i .done).get? j)) i cfg.items.length hi
      (by simp only [hti]; rfl)
      (by simp only [lget_set_self _ _ _ (lget_lt hti)]; rfl)
      (fun j hj => by simp only [lget_set_ne (Ne.symm hj)])
  unfold doneFailedErrs
  rw [hf, hg, List.filterMap_append, List.filterMap_append,
    List.filterMap_cons_some (by simpa using hie)]
  exact List.perm_middle.trans (List.perm_append_singleton _ _).symm

theorem dfe_set_running {cfg : Cfg T R} {ts : List TaskStatus} {i : Nat}
    (hti : ts.get? i = some TaskStatus.notSpawned) :
    doneFailedErrs cfg (ts.set i .running) = doneFailedErrs cfg ts := by
  unfold doneFailedErrs
  congr 1
  apply List.filter_congr
  intro j _
  by_cases hij : i = j
  · subst hij
    rw [lget_set_self _ _ _ (lget_lt hti), hti]
    rfl
  · rw [lget_set_ne hij]

/-! ## The invariant holds initially and is preserved -/

theorem inv_init (cfg : Cfg T R) : Inv cfg (initSt cfg) := by
  have hrep : ∀ j, j < cfg.items.length →
      (initSt cfg).tasks.get? j = some TaskStatus.notSpawned := by
    intro j hj
    show (List.replicate cfg.items.length TaskStatus.notSpawned).get? j = _
    rw [lget_replicate, if_pos hj]
  have hdfe : doneFailedErrs cfg (initSt cfg).tasks = [] := by
    unfold doneFailedErrs
    have hfil : (List.range cfg.items.length).filter
        (fun j => isDoneO ((initSt cfg).tasks.get? j)) = [] := by
      apply List.filter_eq_nil_iff.mpr
      intro j hj
      rw [hrep j (List.mem_range.mp hj)]
      simp [isDoneO]
    rw [hfil]
    rfl
  refine ⟨?_, ?_, ?_, ?_, ?_, ?_, ?_, ?_, ?_, ?_⟩
  · simp [initSt]
  · simp [initSt]
  · show 0 = List.countP _ _
    symm
    apply List.countP_eq_zero.mpr
    intro a ha
    rw [List.eq_of_mem_replicate ha]
    simp [isRunningT]
  · exact Nat.zero_le _
  · intro j hj
    show (List.replicate cfg.items.length cfg.rzero).get? j = _
    rw [lget_replicate, if_pos hj]
    unfold slotExpected
    rw [hrep j hj]
    rfl
  · intro _
    rfl
  · intro _
    rw [hdfe]
    exact List.Perm.refl []
  · intro _
    exact ⟨rfl, rfl⟩
  · intro _
    rw [hdfe]
    exact List.Perm.refl []
  · refine ⟨Nat.zero_le _, ?_, rfl⟩
    intro j hj
    rw [hrep j hj]
    simp [isNotSpawnedO]

theorem inv_taskStep {cfg : Cfg T R} {s s' : St R} {i : Nat} (hinv : Inv cfg s)
    (h : taskStep cfg s i = some s') : Inv cfg s' := by
  cases hti : s.tasks.get? i with
  | none =>
      simp only [taskStep, hti] at h
      exact Option.noConfusion h
  | some t =>
  cases t with
  | notSpawned =>
      simp only [taskStep, hti] at h
      exact Option.noConfusion h
  | done =>
      simp only [taskStep, hti] at h
      exact Option.noConfusion h
  | running =>
  cases hit : cfg.items.get? i with
  | none =>
      simp only [taskStep, hti, hit] at h
      exact Option.noConfusion h
  | some item =>
  have hiT : i < s.tasks.length := lget_lt hti
  have hiN : i < cfg.items.length := by rw [hinv.lenT] at hiT; exact hiT
  have hie : itemErr cfg i = (cfg.process item).2 := by
    unfold itemErr; rw [hit]
  have hival : itemValD cfg i = (cfg.process item).1 := by
    unfold itemValD; rw [hit]
  have hcount : (s.tasks.set i .done).countP isRunningT + 1 =
      s.tasks.countP isRunningT := by
    have := countP_set_pair s.tasks isRunningT i _ TaskStatus.done hti
    simpa [isRunningT] using this
  have hsem1 : 1 ≤ s.sem := by
    rw [hinv.semEq]
    exact countP_pos_get? hti rfl
  have hns := isNotSpawnedO_set_done hti
  have hret_false : ∀ res err, s.pc ≠ MainPC.returned res err := by
    intro res err hpc
    have hri := hinv.pcOk
    rw [hpc] at hri
    obtain ⟨hcnt, -, -, -⟩ := hri
    have := countP_pos_get? hti (show isRunningT .running = true from rfl)
    omega
  have hresN : ∀ j, j ≠ i →
      some (slotExpected cfg (s.tasks.set i TaskStatus.done) j) =
        some (slotExpected cfg s.tasks j) := by
    intro j hj
    unfold slotExpected
    rw [lget_set_ne (fun hc => hj hc.symm)]
  cases hpe : (cfg.process item).2 with
  | none =>
      simp only [taskStep, hti, hit, hpe] at h
      injection h with h
      subst h
      have hdfe := dfe_set_done_none hinv.lenT hti (hie.trans hpe)
      refine ⟨?_, ?_, ?_, ?_, ?_, ?_, ?_, ?_, ?_, ?_⟩
      · simpa using hinv.lenT
      · simpa using hinv.lenR
      · show s.sem - 1 = (s.tasks.set i TaskStatus.done).countP isRunningT
        have := hinv.semEq
        omega
      · show s.sem - 1 ≤ cfg.batchSize
        have := hinv.semLe
        omega
      · intro j hj
        by_cases hij : i = j
        · subst hij
          show (s.results.set i (cfg.process item).1).get? i = _
          rw [lget_set_self _ _ _ (by rw [hinv.lenR]; exact hiN)]
          unfold slotExpected
          rw [lget_set_self _ _ _ hiT, hie, hpe, hival]
          rfl
        · show (s.results.set i (cfg.process item).1).get? j = _
          rw [lget_set_ne hij, hinv.resChar j hj]
          exact (hresN j (fun hc => hij hc.symm)).symm
      · exact hinv.stopAllNil
      · intro hstop
        show s.reported.Perm _
        rw [hdfe]
        exact hinv.stopPerm hstop
      · exact hinv.contQNil
      · intro hcont
        show s.allErrors.Perm _
        rw [hdfe]
        exact hinv.contPerm hcont
      · show PcInv cfg _ s.pc
        have hp := hinv.pcOk
        cases hpc : s.pc with
        | loop i0 =>
            rw [hpc] at hp
            exact ⟨hp.1, spawnedBelow_set_done hti hp.2.1, hp.2.2⟩
        | check i0 =>
            rw [hpc] at hp
            exact ⟨hp.1, spawnedBelow_set_done hti hp.2.1, hp.2.2.1, hp.2.2.2⟩
        | earlyWait e0 =>
            rw [hpc] at hp
            exact hp
        | finalWait =>
            rw [hpc] at hp
            exact ⟨spawnedBelow_set_done hti hp.1, hp.2⟩
        | returned res err => exact absurd hpc (hret_false res err)
  | some e =>
      have hdfe := dfe_set_done_some hinv.lenT hti (hie.trans hpe)
      cases hstrat : cfg.handleErrorStrategy with
      | true =>
          -- StopOnError: the report is queued on `errChan`; the buffer never
          -- fills because at most one report per worker can exist.
          have hqle : s.errQ.length ≤ s.reported.length := by
            have hp := hinv.pcOk
            cases hpc : s.pc <;> rw [hpc] at hp
            · exact le_of_eq (by rw [hp.2.2])
            · exact le_of_eq (by rw [hp.2.2.2])
            · rw [hp.2.2]
              simp
            · exact le_of_eq (by rw [hp.2])
            · exact absurd hpc (hret_false _ _)
          have hperm := hinv.stopPerm (by rw [hstrat]; rfl)
          have hqlt : s.errQ.length < cfg.items.length := by
            have hrel : s.reported.length = (doneFailedErrs cfg s.tasks).length :=
              hperm.length_eq
            have hdle : (doneFailedErrs cfg s.tasks).length ≤
                ((List.range cfg.items.length).filter
                  (fun j => isDoneO (s.tasks.get? j))).length :=
              List.length_filterMap_le _ _
            have hflt : ((List.range cfg.items.length).filter
                (fun j => isDoneO (s.tasks.get? j))).length < cfg.items.length := by
              have hmem : i ∈ List.range cfg.items.length := List.mem_range.mpr hiN
              have := countP_lt_of_mem (p := fun j => isDoneO (s.tasks.get? j))
                hmem (by simp only [hti]; rfl)
              rw [List.countP_eq_length_filter] at this
              simpa using this
            omega
          simp only [taskStep, hti, hit, hpe] at h
          rw [if_pos (show cfg.handleErrorStrategy = STOP_ON_ERROR by
                rw [hstrat]; rfl), if_pos hqlt] at h
          injection h with h
          subst h
          refine ⟨?_, ?_, ?_, ?_, ?_, ?_, ?_, ?_, ?_, ?_⟩
          · simpa using hinv.lenT
          · simpa using hinv.lenR
          · show s.sem - 1 = (s.tasks.set i TaskStatus.done).countP isRunningT
            have := hinv.semEq
            omega
          · show s.sem - 1 ≤ cfg.batchSize
            have := hinv.semLe
            omega
          · intro j hj
            by_cases hij : i = j
            · subst hij
              show s.results.get? i = _
              rw [hinv.resChar i hiN]
              unfold slotExpected
              rw [lget_set_self _ _ _ hiT, hie, hpe, hti]
              rfl
            · show s.results.get? j = _
              rw [hinv.resChar j hj]
              exact (hresN j (fun hc => hij hc.symm)).symm
          · intro _
            exact hinv.stopAllNil (by rw [hstrat]; rfl)
          · intro _
            show (s.reported ++ [e]).Perm _
            exact ((hperm.append_right [e]).trans hdfe.symm)
          · intro hcont
            rw [CONTINUE_ON_ERROR_def, hstrat] at hcont
            cases hcont
          · intro hcont
            rw [CONTINUE_ON_ERROR_def, hstrat] at hcont
            cases hcont
          · show PcInv cfg _ s.pc
            have hp := hinv.pcOk
            cases hpc : s.pc with
            | loop i0 =>
                rw [hpc] at hp
                refine ⟨hp.1, spawnedBelow_set_done hti hp.2.1, ?_⟩
                show s.errQ ++ [e] = s.reported ++ [e]
                rw [hp.2.2]
            | check i0 =>
                rw [hpc] at hp
                refine ⟨hp.1, spawnedBelow_set_done hti hp.2.1, hp.2.2.1, ?_⟩
                show s.errQ ++ [e] = s.reported ++ [e]
                rw [hp.2.2.2]
            | earlyWait e0 =>
                rw [hpc] at hp
                obtain ⟨hp1, hp2, hp3⟩ := hp
                cases hrep : s.reported with
                | nil => rw [hrep] at hp2; cases hp2
                | cons x xs =>
                    rw [hrep] at hp2 hp3
                    refine ⟨hp1, ?_, ?_⟩
                    · show ((x :: xs) ++ [e]).head? = some e0
                      simpa using hp2
                    · show s.errQ ++ [e] = ((x :: xs) ++ [e]).drop 1
                      rw [hp3]
                      simp
            | finalWait =>
                rw [hpc] at hp
                refine ⟨spawnedBelow_set_done hti hp.1, ?_⟩
                show s.errQ ++ [e] = s.reported ++ [e]
                rw [hp.2]
            | returned res err => exact absurd hpc (hret_false res err)
      | false =>
          -- ContinueOnError: the report is appended to `allErrors`.
          simp only [taskStep, hti, hit, hpe] at h
          rw [if_neg (show ¬ cfg.handleErrorStrategy = STOP_ON_ERROR from by
                simp [hstrat])] at h
          injection h with h
          subst h
          refine ⟨?_, ?_, ?_, ?_, ?_, ?_, ?_, ?_, ?_, ?_⟩
          · simpa using hinv.lenT
          · simpa using hinv.lenR
          · show s.sem - 1 = (s.tasks.set i TaskStatus.done).countP isRunningT
            have := hinv.semEq
            omega
          · show s.sem - 1 ≤ cfg.batchSize
            have := hinv.semLe
            omega
          · intro j hj
            by_cases hij : i = j
            · subst hij
              show s.results.get? i = _
              rw [hinv.resChar i hiN]
              unfold slotExpected
              rw [lget_set_self _ _ _ hiT, hie, hpe, hti]
              rfl
            · show s.results.get? j = _
              rw [hinv.resChar j hj]
              exact (hresN j (fun hc => hij hc.symm)).symm
          · intro hstop
            rw [STOP_ON_ERROR_def, hstrat] at hstop
            cases hstop
          · intro hstop
            rw [STOP_ON_ERROR_def, hstrat] at hstop
            cases hstop
          · intro _
            exact hinv.contQNil (by rw [hstrat]; rfl)
          · intro _
            show (s.allErrors ++ [e]).Perm _
            have hperm := hinv.contPerm (by rw [hstrat]; rfl)
            exact ((hperm.append_right [e]).trans hdfe.symm)
          · show PcInv cfg _ s.pc
            have hp := hinv.pcOk
            cases hpc : s.pc with
            | loop i0 =>
                rw [hpc] at hp
                exact ⟨hp.1, spawnedBelow_set_done hti hp.2.1, hp.2.2⟩
            | check i0 =>
                rw [hpc] at hp
                have := hp.2.2.1
                rw [STOP_ON_ERROR_def, hstrat] at this
                cases this
            | earlyWait e0 =>
                rw [hpc] at hp
                have := hp.1
                rw [STOP_ON_ERROR_def, hstrat] at this
                cases this
            | finalWait =>
                rw [hpc] at hp
                exact ⟨spawnedBelow_set_done hti hp.1, hp.2⟩
            | returned res err => exact absurd hpc (hret_false res err)

theorem inv_mainStep {cfg : Cfg T R} {s s' : St R} (hinv : Inv cfg s)
    (h : mainStep cfg s = some s') : Inv cfg s' := by
  cases hpc : s.pc with
  | loop i =>
      have hp := hinv.pcOk
      rw [hpc] at hp
      obtain ⟨hile, hsb, hqr⟩ := hp
      simp only [mainStep, hpc] at h
      by_cases hin : i < cfg.items.length
      · rw [if_pos hin] at h
        by_cases hsem : s.sem < cfg.batchSize
        · rw [if_pos hsem] at h
          injection h with h
          subst h
          have htiN : s.tasks.get? i = some TaskStatus.notSpawned := by
            apply isNotSpawnedO_eq_some
            exact (hsb i hin).mpr (le_refl i)
          have hiT : i < s.tasks.length := by rw [hinv.lenT]; exact hin
          have hcount : (s.tasks.set i .running).countP isRunningT =
              s.tasks.countP isRunningT + 1 := by
            have := countP_set_pair s.tasks isRunningT i _ TaskStatus.running htiN
            simpa [isRunningT] using this
          have hsb' : spawnedBelow cfg (s.tasks.set i TaskStatus.running) (i + 1) := by
            intro j hj
            by_cases hij : j = i
            · subst hij
              rw [lget_set_self _ _ _ hiT]
              simp [isNotSpawnedO]
            · rw [lget_set_ne (fun hc => hij hc.symm)]
              have hold := hsb j hj
              constructor
              · intro hx
                have := hold.mp hx
                omega
              · intro hx
                apply hold.mpr
                omega
          have hdfe : doneFailedErrs cfg (s.tasks.set i TaskStatus.running) =
              doneFailedErrs cfg s.tasks := dfe_set_running htiN
          refine ⟨?_, ?_, ?_, ?_, ?_, ?_, ?_, ?_, ?_, ?_⟩
          · simpa using hinv.lenT
          · simpa using hinv.lenR
          · show s.sem + 1 = (s.tasks.set i TaskStatus.running).countP isRunningT
            rw [hcount, ← hinv.semEq]
          · show s.sem + 1 ≤ cfg.batchSize
            omega
          · intro j hj
            show s.results.get? j = _
            rw [hinv.resChar j hj]
            congr 1
            unfold slotExpected
            by_cases hij : i = j
            · subst hij
              rw [lget_set_self _ _ _ hiT, htiN]
              rfl
            · rw [lget_set_ne hij]
          · exact hinv.stopAllNil
          · intro hstop
            show s.reported.Perm _
            rw [hdfe]
            exact hinv.stopPerm hstop
          · exact hinv.contQNil
          · intro hcont
            show s.allErrors.Perm _
            rw [hdfe]
            exact hinv.contPerm hcont
          · show PcInv cfg _ (if cfg.handleErrorStrategy = STOP_ON_ERROR
                then MainPC.check i else MainPC.loop (i + 1))
            cases hstrat : cfg.handleErrorStrategy with
            | true =>
                rw [if_pos (show (true : errorHandler) = STOP_ON_ERROR from rfl)]
                exact ⟨hin, hsb', hstrat, hqr⟩
            | false =>
                rw [if_neg (show ¬ (false : errorHandler) = STOP_ON_ERROR from by
                      simp)]
                exact ⟨by omega, hsb', hqr⟩
        · rw [if_neg hsem] at h
          exact Option.noConfusion h
      · rw [if_neg hin] at h
        injection h with h
        subst h
        have hieq : i = cfg.items.length := by omega
        subst hieq
        exact ⟨hinv.lenT, hinv.lenR, hinv.semEq, hinv.semLe, hinv.resChar,
          hinv.stopAllNil, hinv.stopPerm, hinv.contQNil, hinv.contPerm, hsb, hqr⟩
  | check i =>
      have hp := hinv.pcOk
      rw [hpc] at hp
      obtain ⟨hiN, hsb, hstop, hqr⟩ := hp
      simp only [mainStep, hpc] at h
      cases herr : s.errQ with
      | nil =>
          simp only [herr] at h
          injection h with h
          subst h
          refine ⟨hinv.lenT, hinv.lenR, hinv.semEq, hinv.semLe, hinv.resChar,
            hinv.stopAllNil, hinv.stopPerm, ?_, hinv.contPerm,
            by omega, hsb, ?_⟩
          · intro hc
            exact ⟨rfl, (hinv.contQNil hc).2⟩
          · show ([] : List GoErr) = s.reported
            rw [herr] at hqr
            exact hqr
      | cons e rest =>
          simp only [herr] at h
          injection h with h
          subst h
          have hrq : s.reported = e :: rest := by rw [← hqr, herr]
          refine ⟨hinv.lenT, hinv.lenR, hinv.semEq, hinv.semLe, hinv.resChar,
            hinv.stopAllNil, hinv.stopPerm, ?_, hinv.contPerm, ?_⟩
          · intro hcont
            rw [STOP_ON_ERROR_def] at hstop
            rw [CONTINUE_ON_ERROR_def, hstop] at hcont
            cases hcont
          · refine ⟨hstop, ?_, ?_⟩
            · rw [hrq]
              rfl
            · show rest = s.reported.drop 1
              rw [hrq]
              rfl
  | earlyWait e =>
      have hp := hinv.pcOk
      rw [hpc] at hp
      obtain ⟨hstop, hhead, hdrop⟩ := hp
      simp only [mainStep, hpc] at h
      by_cases hcnt : s.tasks.countP isRunningT = 0
      · rw [if_pos hcnt] at h
        injection h with h
        subst h
        refine ⟨hinv.lenT, hinv.lenR, hinv.semEq, hinv.semLe, hinv.resChar,
          hinv.stopAllNil, hinv.stopPerm, hinv.contQNil, hinv.contPerm, ?_⟩
        cases hrep : s.reported with
        | nil =>
            rw [hrep] at hhead
            cases hhead
        | cons x xs =>
            rw [hrep] at hhead
            have hx : x = e := by
              have : some x = some e := hhead
              injection this
            refine ⟨hcnt, Or.inr (List.cons_ne_nil x xs), ?_, ?_⟩
            · intro _
              refine ⟨rfl, by rw [hx], ?_⟩
              rw [hrep] at hdrop
              exact hdrop
            · intro hcont
              rw [STOP_ON_ERROR_def] at hstop
              rw [CONTINUE_ON_ERROR_def, hstop] at hcont
              cases hcont
      · rw [if_neg hcnt] at h
        exact Option.noConfusion h
  | finalWait =>
      have hp := hinv.pcOk
      rw [hpc] at hp
      obtain ⟨hsb, hqr⟩ := hp
      simp only [mainStep, hpc] at h
      by_cases hcnt : s.tasks.countP isRunningT = 0
      · rw [if_pos hcnt] at h
        cases hstrat : cfg.handleErrorStrategy with
        | true =>
            rw [if_pos (show cfg.handleErrorStrategy = STOP_ON_ERROR by
                  rw [hstrat]; rfl)] at h
            cases herr : s.errQ with
            | cons e rest =>
                simp only [herr] at h
                injection h with h
                subst h
                have hrq : s.reported = e :: rest := by rw [← hqr, herr]
                refine ⟨hinv.lenT, hinv.lenR, hinv.semEq, hinv.semLe, hinv.resChar,
                  hinv.stopAllNil, hinv.stopPerm, ?_, hinv.contPerm, ?_⟩
                · intro hcont
                  rw [CONTINUE_ON_ERROR_def, hstrat] at hcont
                  cases hcont
                · refine ⟨hcnt, Or.inl hsb, ?_, ?_⟩
                  · intro _
                    rw [hrq]
                    exact ⟨rfl, rfl, rfl⟩
                  · intro hcont
                    rw [CONTINUE_ON_ERROR_def, hstrat] at hcont
                    cases hcont
            | nil =>
                simp only [herr] at h
                injection h with h
                subst h
                have hrq : s.reported = [] := by rw [← hqr, herr]
                refine ⟨hinv.lenT, hinv.lenR, hinv.semEq, hinv.semLe, hinv.resChar,
                  hinv.stopAllNil, hinv.stopPerm, ?_, hinv.contPerm, ?_⟩
                · intro hc
                  exact ⟨rfl, (hinv.contQNil hc).2⟩
                · refine ⟨hcnt, Or.inl hsb, ?_, ?_⟩
                  · intro _
                    rw [hrq]
                    exact ⟨rfl, rfl, rfl⟩
                  · intro hcont
                    rw [CONTINUE_ON_ERROR_def, hstrat] at hcont
                    cases hcont
        | false =>
            rw [if_neg (show ¬ cfg.handleErrorStrategy = STOP_ON_ERROR from by
                  simp [hstrat])] at h
            by_cases hall : s.allErrors = []
            · rw [if_pos hall] at h
              injection h with h
              subst h
              refine ⟨hinv.lenT, hinv.lenR, hinv.semEq, hinv.semLe, hinv.resChar,
                hinv.stopAllNil, hinv.stopPerm, hinv.contQNil, hinv.contPerm, ?_⟩
              refine ⟨hcnt, Or.inl hsb, ?_, ?_⟩
              · intro hstop
                rw [STOP_ON_ERROR_def, hstrat] at hstop
                cases hstop
              · intro _
                refine ⟨hsb, rfl, ?_⟩
                rw [hall]
            · rw [if_neg hall] at h
              injection h with h
              subst h
              refine ⟨hinv.lenT, hinv.lenR, hinv.semEq, hinv.semLe, hinv.resChar,
                hinv.stopAllNil, hinv.stopPerm, hinv.contQNil, hinv.contPerm, ?_⟩
              refine ⟨hcnt, Or.inl hsb, ?_, ?_⟩
              · intro hstop
                rw [STOP_ON_ERROR_def, hstrat] at hstop
                cases hstop
              · intro _
                refine ⟨hsb, rfl, ?_⟩
                cases hae : s.allErrors with
                | nil => exact absurd hae hall
                | cons a l => rfl
      · rw [if_neg hcnt] at h
        exact Option.noConfusion h
  | returned res err =>
      simp only [mainStep, hpc] at h
      exact Option.noConfusion h

theorem inv_stepD {cfg : Cfg T R} {s : St R} (hinv : Inv cfg s) (c : Choice) :
    Inv cfg (stepD cfg s c) := by
  cases c with
  | main =>
      show Inv cfg ((mainStep cfg s).getD s)
      cases hm : mainStep cfg s with
      | none => exact hinv
      | some s2 => exact inv_mainStep hinv hm
  | task i =>
      show Inv cfg ((taskStep cfg s i).getD s)
      cases hm : taskStep cfg s i with
      | none => exact hinv
      | some s2 => exact inv_taskStep hinv hm

theorem inv_runFrom {cfg : Cfg T R} {s : St R} (hinv : Inv cfg s)
    (sched : List Choice) : Inv cfg (runFrom cfg s sched) := by
  induction sched generalizing s with
  | nil => exact hinv
  | cons c cs ih => exact ih (inv_stepD hinv c)

theorem inv_run (cfg : Cfg T R) (sched : List Choice) : Inv cfg (run cfg sched) :=
  inv_runFrom (inv_init cfg) sched

/-! ## Reading the claims off the invariant -/

theorem outcome_eq_iff {s : St R} {res : Option (List R)} {err : Option GoErr} :
    outcome s = some (res, err) ↔ s.pc = .returned res err := by
  cases hpc : s.pc <;> simp [outcome, hpc]

theorem all_done_of {cfg : Cfg T R} {s : St R} (hinv : Inv cfg s)
    (hcnt : s.tasks.countP isRunningT = 0)
    (hsb : spawnedBelow cfg s.tasks cfg.items.length) :
    ∀ j, j < cfg.items.length → isDoneO (s.tasks.get? j) = true := by
  intro j hj
  obtain ⟨t, ht⟩ := lget_exists (l := s.tasks) (i := j) (by rw [hinv.lenT]; exact hj)
  have hmem : t ∈ s.tasks := List.get?_mem ht
  have hrun : isRunningT t = false := countP_zero_mem hcnt hmem
  have hns := hsb j hj
  rw [ht] at hns ⊢
  cases t with
  | notSpawned =>
      have : cfg.items.length ≤ j := hns.mp rfl
      omega
  | running => simp [isRunningT] at hrun
  | done => rfl

/-- Once every worker is done, the results slice is exactly `goodResults`. -/
theorem results_eq_good {cfg : Cfg T R} {s : St R} (hinv : Inv cfg s)
    (hdone : ∀ j, j < cfg.items.length → isDoneO (s.tasks.get? j) = true) :
    s.results = goodResults cfg := by
  apply List.ext_get?
  intro j
  by_cases hj : j < cfg.items.length
  · rw [hinv.resChar j hj]
    obtain ⟨it, hit⟩ := lget_exists (l := cfg.items) (i := j) hj
    have hie : itemErr cfg j = (cfg.process it).2 := by unfold itemErr; rw [hit]
    have hiv : itemValD cfg j = (cfg.process it).1 := by unfold itemValD; rw [hit]
    show some (slotExpected cfg s.tasks j) = (goodResults cfg).get? j
    unfold goodResults
    rw [List.get?_map, hit, Option.map_some']
    unfold slotExpected
    rw [hdone j hj, hie]
    cases hpe : (cfg.process it).2 with
    | none => simp [hiv]
    | some e0 => simp
  · push_neg at hj
    rw [List.get?_len_le (by rw [hinv.lenR]; exact hj),
      List.get?_len_le (by unfold goodResults; rw [List.length_map]; exact hj)]

theorem dfe_eq_failures {cfg : Cfg T R} {s : St R}
    (hdone : ∀ j, j < cfg.items.length → isDoneO (s.tasks.get? j) = true) :
    doneFailedErrs cfg s.tasks = failuresList cfg := by
  unfold doneFailedErrs failuresList
  congr 1
  apply List.filter_eq_self.mpr
  intro j hj
  exact hdone j (List.mem_range.mp hj)

theorem mem_dfe {cfg : Cfg T R} {ts : List TaskStatus} {e : GoErr}
    (h : e ∈ doneFailedErrs cfg ts) :
    ∃ j, j < cfg.items.length ∧ itemErr cfg j = some e := by
  unfold doneFailedErrs at h
  obtain ⟨j, hjmem, hje⟩ := List.mem_filterMap.mp h
  exact ⟨j, List.mem_range.mp (List.mem_of_mem_filter hjmem), hje⟩

theorem mem_failuresList {cfg : Cfg T R} {j : Nat} {e : GoErr}
    (hj : j < cfg.items.length) (hje : itemErr cfg j = some e) :
    e ∈ failuresList cfg := by
  unfold failuresList
  exact List.mem_filterMap.mpr ⟨j, List.mem_range.mpr hj, hje⟩

theorem dfe_mem_failures {cfg : Cfg T R} {ts : List TaskStatus} {e : GoErr}
    (h : e ∈ doneFailedErrs cfg ts) : e ∈ failuresList cfg := by
  obtain ⟨j, hj, hje⟩ := mem_dfe h
  exact mem_failuresList hj hje

theorem mem_dfe_of_done {cfg : Cfg T R} {ts : List TaskStatus} {j : Nat} {e : GoErr}
    (hj : j < cfg.items.length) (hdone : isDoneO (ts.get? j) = true)
    (hje : itemErr cfg j = some e) : e ∈ doneFailedErrs cfg ts := by
  unfold doneFailedErrs
  apply List.mem_filterMap.mpr
  refine ⟨j, List.mem_filter.mpr ⟨List.mem_range.mpr hj, hdone⟩, hje⟩

theorem failuresList_eq_nil_iff {cfg : Cfg T R} :
    failuresList cfg = [] ↔ ∀ j, j < cfg.items.length → itemErr cfg j = none := by
  unfold failuresList
  rw [List.filterMap_eq_nil_iff]
  constructor
  · intro h j hj
    exact h j (List.mem_range.mpr hj)
  · intro h j hj
    exact h j (List.mem_range.mp hj)

theorem hasFailure_iff {cfg : Cfg T R} :
    hasFailure cfg = true ↔ failuresList cfg ≠ [] := by
  unfold hasFailure
  rw [List.any_eq_true]
  constructor
  · rintro ⟨j, hjm, hjs⟩ hnil
    rw [failuresList_eq_nil_iff] at hnil
    rw [hnil j (List.mem_range.mp hjm)] at hjs
    simp at hjs
  · intro h
    by_contra hcon
    push_neg at hcon
    apply h
    rw [failuresList_eq_nil_iff]
    intro j hj
    have hj2 := hcon j (List.mem_range.mpr hj)
    cases hie : itemErr cfg j with
    | none => rfl
    | some e =>
        rw [hie] at hj2
        simp at hj2

/-- The observable behaviour of every returning `StopOnError` run. -/
theorem stop_obs {cfg : Cfg T R} {sched : List Choice} {res : Option (List R)}
    {err : Option GoErr} (hstop : cfg.handleErrorStrategy = STOP_ON_ERROR)
    (hret : outcome (run cfg sched) = some (res, err)) :
    (failuresList cfg = [] → res = some (goodResults cfg) ∧ err = none) ∧
    (failuresList cfg ≠ [] → res = none ∧
      ∃ e, err = some e ∧ e ∈ failuresList cfg) := by
  have hinv := inv_run cfg sched
  have hpc := outcome_eq_iff.mp hret
  have hr := hinv.pcOk
  rw [hpc] at hr
  obtain ⟨hcnt, hdisj, hstopPart, -⟩ := hr
  have hperm := hinv.stopPerm hstop
  have hsp := hstopPart hstop
  cases hrep : (run cfg sched).reported with
  | nil =>
      rw [hrep] at hsp hperm
      obtain ⟨hres, herr, -⟩ := hsp
      have hsb : spawnedBelow cfg (run cfg sched).tasks cfg.items.length := by
        cases hdisj with
        | inl h => exact h
        | inr h => exact absurd hrep h
      have hdone := all_done_of hinv hcnt hsb
      have hdfe_nil : doneFailedErrs cfg (run cfg sched).tasks = [] :=
        (List.Perm.nil_eq hperm).symm
      have hfail_nil : failuresList cfg = [] := by
        rw [← dfe_eq_failures hdone]
        exact hdfe_nil
      constructor
      · intro _
        exact ⟨by rw [hres, results_eq_good hinv hdone], herr⟩
      · intro hne
        exact absurd hfail_nil hne
  | cons x xs =>
      rw [hrep] at hsp hperm
      obtain ⟨hres, herr, -⟩ := hsp
      have hx_mem : x ∈ doneFailedErrs cfg (run cfg sched).tasks :=
        hperm.mem_iff.mp (List.mem_cons_self x xs)
      have hxf : x ∈ failuresList cfg := dfe_mem_failures hx_mem
      have hfne : failuresList cfg ≠ [] := by
        intro hc
        rw [hc] at hxf
        cases hxf
      constructor
      · intro h0
        exact absurd h0 hfne
      · intro _
        exact ⟨hres, x, herr, hxf⟩

/-- The observable behaviour of every returning `ContinueOnError` run. -/
theorem cont_obs {cfg : Cfg T R} {sched : List Choice} {res : Option (List R)}
    {err : Option GoErr} (hcont : cfg.handleErrorStrategy = CONTINUE_ON_ERROR)
    (hret : outcome (run cfg sched) = some (res, err)) :
    res = some (goodResults cfg) ∧
    (∀ j, j < cfg.items.length → isDoneO ((run cfg sched).tasks.get? j) = true) ∧
    ∃ l, l.Perm (failuresList cfg) ∧
      err = (match l with | [] => none | _ :: _ => some (aggregateErrors l)) := by
  have hinv := inv_run cfg sched
  have hpc := outcome_eq_iff.mp hret
  have hr := hinv.pcOk
  rw [hpc] at hr
  obtain ⟨hcnt, -, -, hcp⟩ := hr
  obtain ⟨hsb, hres, herr⟩ := hcp hcont
  have hdone := all_done_of hinv hcnt hsb
  have hperm := hinv.contPerm hcont
  rw [dfe_eq_failures hdone] at hperm
  exact ⟨by rw [hres, results_eq_good hinv hdone], hdone,
    (run cfg sched).allErrors, hperm, herr⟩

/-! ## Support for the early-stop and batch-size claims -/

theorem run_append (cfg : Cfg T R) (p q : List Choice) :
    run cfg (p ++ q) = runFrom cfg (run cfg p) q := by
  unfold run runFrom
  exact List.foldl_append _ _ p q

/-- The shape of any enabled worker step: the program counter of the main
goroutine is untouched and exactly the worker's slot flips to done. -/
theorem taskStep_shape {cfg : Cfg T R} {s s2 : St R} {i : Nat}
    (h : taskStep cfg s i = some s2) :
    s2.pc = s.pc ∧ s.tasks.get? i = some TaskStatus.running ∧
      s2.tasks = s.tasks.set i TaskStatus.done := by
  cases hti : s.tasks.get? i with
  | none =>
      simp only [taskStep, hti] at h
      exact Option.noConfusion h
  | some t =>
  cases t with
  | notSpawned =>
      simp only [taskStep, hti] at h
      exact Option.noConfusion h
  | done =>
      simp only [taskStep, hti] at h
      exact Option.noConfusion h
  | running =>
  cases hit : cfg.items.get? i with
  | none =>
      simp only [taskStep, hti, hit] at h
      exact Option.noConfusion h
  | some item =>
      simp only [taskStep, hti, hit] at h
      cases hpe : (cfg.process item).2 with
      | none =>
          simp only [hpe] at h
          injection h with h
          subst h
          exact ⟨rfl, rfl, rfl⟩
      | some e =>
          simp only [hpe] at h
          cases hstrat : cfg.handleErrorStrategy with
          | true =>
              rw [if_pos (show cfg.handleErrorStrategy = STOP_ON_ERROR by
                    rw [hstrat]; rfl)] at h
              injection h with h
              subst h
              exact ⟨rfl, rfl, rfl⟩
          | false =>
              rw [if_neg (show ¬ cfg.handleErrorStrategy = STOP_ON_ERROR from by
                    simp [hstrat])] at h
              injection h with h
              subst h
              exact ⟨rfl, rfl, rfl⟩

theorem scheduledCount_set_done {ts : List TaskStatus} {i : Nat}
    (hti : ts.get? i = some TaskStatus.running) :
    (ts.set i TaskStatus.done).countP (fun t => ! isNotSpawnedT t) =
      ts.countP (fun t => ! isNotSpawnedT t) := by
  have := countP_set_pair ts (fun t => ! isNotSpawnedT t) i _ TaskStatus.done hti
  simpa [isNotSpawnedT] using this

/-- States in which the main goroutine has observed a failure via the loop
check (or already returned): no spawning can ever happen again. -/
def Drained (s : St R) : Prop :=
  (∃ e, s.pc = MainPC.earlyWait e) ∨ ∃ res err, s.pc = MainPC.returned res err

theorem drained_stepD {cfg : Cfg T R} {s : St R} (hd : Drained s) (c : Choice) :
    Drained (stepD cfg s c) ∧
      scheduledCount (stepD cfg s c) = scheduledCount s := by
  cases c with
  | main =>
      show Drained ((mainStep cfg s).getD s) ∧
        scheduledCount ((mainStep cfg s).getD s) = scheduledCount s
      rcases hd with ⟨e, hpc⟩ | ⟨res, err, hpc⟩
      · by_cases hcnt : s.tasks.countP isRunningT = 0
        · rw [show mainStep cfg s = some { s with pc := .returned none (some e) } from by
              simp only [mainStep, hpc, if_pos hcnt]]
          exact ⟨Or.inr ⟨none, some e, rfl⟩, rfl⟩
        · rw [show mainStep cfg s = none from by
              simp only [mainStep, hpc, if_neg hcnt]]
          exact ⟨Or.inl ⟨e, hpc⟩, rfl⟩
      · rw [show mainStep cfg s = none from by simp only [mainStep, hpc]]
        exact ⟨Or.inr ⟨res, err, hpc⟩, rfl⟩
  | task i =>
      show Drained ((taskStep cfg s i).getD s) ∧
        scheduledCount ((taskStep cfg s i).getD s) = scheduledCount s
      cases hts : taskStep cfg s i with
      | none => exact ⟨hd, rfl⟩
      | some s2 =>
          obtain ⟨hpc2, hti, htasks⟩ := taskStep_shape hts
          constructor
          · rcases hd with ⟨e, hpc⟩ | ⟨res, err, hpc⟩
            · exact Or.inl ⟨e, by rw [show (Option.getD (some s2) s) = s2 from rfl,
                hpc2, hpc]⟩
            · exact Or.inr ⟨res, err, by rw [show (Option.getD (some s2) s) = s2 from rfl,
                hpc2, hpc]⟩
          · show scheduledCount s2 = scheduledCount s
            unfold scheduledCount
            rw [htasks]
            exact scheduledCount_set_done hti

theorem drained_runFrom {cfg : Cfg T R} {s : St R} (hd : Drained s)
    (q : List Choice) :
    Drained (runFrom cfg s q) ∧
      scheduledCount (runFrom cfg s q) = scheduledCount s := by
  induction q generalizing s with
  | nil => exact ⟨hd, rfl⟩
  | cons c cs ih =>
      obtain ⟨hd1, hc1⟩ : Drained (stepD cfg s c) ∧
          scheduledCount (stepD cfg s c) = scheduledCount s := drained_stepD hd c
      obtain ⟨hd2, hc2⟩ := ih hd1
      exact ⟨hd2, by rw [show runFrom cfg s (c :: cs) =
        runFrom cfg (stepD cfg s c) cs from rfl, hc2, hc1]⟩

/-- With `batchSize = 0` and a non-empty input, the machine is stuck forever
at its initial state: the first semaphore acquisition can never complete. -/
theorem run_stuck_zero {cfg : Cfg T R} (hbs : cfg.batchSize = 0)
    (hne : cfg.items ≠ []) (sched : List Choice) : run cfg sched = initSt cfg := by
  have h0 : 0 < cfg.items.length := by
    cases hi : cfg.items with
    | nil => exact absurd hi hne
    | cons a l => simp
  have hstep : ∀ c, stepD cfg (initSt cfg) c = initSt cfg := by
    intro c
    cases c with
    | main =>
        show (mainStep cfg (initSt cfg)).getD (initSt cfg) = initSt cfg
        rw [show mainStep cfg (initSt cfg) = none from ?_]
        · rfl
        · simp only [mainStep, initSt]
          rw [if_pos h0, if_neg (show ¬ (0 < cfg.batchSize) from by rw [hbs]; omega)]
    | task i =>
        show (taskStep cfg (initSt cfg) i).getD (initSt cfg) = initSt cfg
        have hrep : (initSt cfg).tasks.get? i = some TaskStatus.notSpawned ∨
            (initSt cfg).tasks.get? i = none := by
          by_cases hi : i < cfg.items.length
          · left
            show (List.replicate cfg.items.length TaskStatus.notSpawned).get? i = _
            rw [lget_replicate, if_pos hi]
          · right
            show (List.replicate cfg.items.length TaskStatus.notSpawned).get? i = none
            rw [lget_replicate, if_neg hi]
        rcases hrep with hti | hti <;>
          · rw [show taskStep cfg (initSt cfg) i = none from by
                simp only [taskStep, hti]]
            rfl
  show runFrom cfg (initSt cfg) sched = initSt cfg
  induction sched with
  | nil => rfl
  | cons c cs ih =>
      show runFrom cfg (stepD cfg (initSt cfg) c) cs = initSt cfg
      rw [hstep c]
      exact ih

/-- With an empty input, two main steps return `(emptyResults, nil)` whatever
the batch size and policy. -/
theorem run_empty_items {cfg : Cfg T R} (hitems : cfg.items = []) :
    outcome (run cfg [Choice.main, Choice.main]) = some (some [], none) := by
  obtain ⟨items, bs, strat, proc, rz⟩ := cfg
  dsimp only at hitems
  subst hitems
  cases strat <;> rfl

theorem intercalate_singleton (e : String) : String.intercalate "; " [e] = e := by
  simp [String.intercalate]
  rfl

/-! ## Concrete runs used as counterexamples and witnesses -/

/-- An all-succeeding `StopOnError` run of `Run([1,2], 1, square)`. -/
def cw1 : Cfg Nat Nat :=
  { items := [1, 2], batchSize := 1, handleErrorStrategy := STOP_ON_ERROR,
    process := fun n => (n * n, none), rzero := 0 }

def cw1sched : List Choice :=
  [.main, .task 0, .main, .main, .task 1, .main, .main, .main]

/-- A `StopOnError` run in which both items fail (messages "e0" and "e1"). -/
def cw2 : Cfg Nat Nat :=
  { items := [0, 1], batchSize := 2, handleErrorStrategy := STOP_ON_ERROR,
    process := fun n => (0, some (if n = 0 then "e0" else "e1")), rzero := 0 }

/-- Both workers report before the loop's next check: both errors are queued,
then the run returns the first of them. -/
def cw2sched : List Choice :=
  [.main, .main, .main, .task 0, .task 1, .main, .main]

/-- A schedule on `cw2` reaching the early-exit path: the loop check observes
the first failure right after it is reported. -/
def cw8p : List Choice := [.main, .task 0, .main]

def cw8q : List Choice := [.main]

/-- A `ContinueOnError` run with one failing item (message "a") and one
succeeding item. -/
def cw3 : Cfg Nat Nat :=
  { items := [1, 2], batchSize := 2, handleErrorStrategy := CONTINUE_ON_ERROR,
    process := fun n => if n = 1 then (0, some "a") else (n * n, none), rzero := 0 }

def cw3sched : List Choice := [.main, .main, .task 0, .task 1, .main, .main]

/-- `ContinueOnError` over two failing items with messages "a" and "b",
generic in the batch size. -/
def c7cfg (bs : Nat) : Cfg Nat Nat :=
  { items := [0, 1], batchSize := bs, handleErrorStrategy := CONTINUE_ON_ERROR,
    process := fun n => (0, some (if n = 0 then "a" else "b")), rzero := 0 }

/-- With batch size 1 the semaphore forces worker 0 to finish before worker 1
is spawned: the failures are collected in input order. -/
def c7sched1 : List Choice := [.main, .task 0, .main, .task 1, .main, .main]

/-- With batch size 2 both workers are in flight together and worker 1 may
report first: the failures are collected in reverse order. -/
def c7sched2 : List Choice := [.main, .main, .task 1, .task 0, .main, .main]

/-- The scenario of `TestBatchErrorAggregation` from src/lib_test.go: five
items, batch size 2, `ContinueOnError`, the three odd items failing with
messages "error processing item n". -/
def c5test : Cfg Nat Nat :=
  { items := [1, 2, 3, 4, 5], batchSize := 2,
    handleErrorStrategy := CONTINUE_ON_ERROR,
    process := fun n =>
      if n % 2 = 1 then
        (0, some (if n = 1 then "error processing item 1"
                  else if n = 3 then "error processing item 3"
                  else "error processing item 5"))
      else (n, none),
    rzero := 0 }

/-- A sequential schedule for `c5test`: each worker finishes before the next
spawn, so the failures are collected in input order. -/
def c5testSched : List Choice :=
  [.main, .task 0, .main, .task 1, .main, .task 2, .main, .task 3,
   .main, .task 4, .main, .main]

/-- `batchSize = 0` over the empty input. -/
def c9empty : Cfg Nat Nat :=
  { items := [], batchSize := 0, handleErrorStrategy := STOP_ON_ERROR,
    process := fun n => (n, none), rzero := 0 }

/-- `batchSize = 0` over a non-empty input. -/
def c9stuck : Cfg Nat Nat :=
  { items := [1], batchSize := 0, handleErrorStrategy := STOP_ON_ERROR,
    process := fun n => (n, none), rzero := 0 }

theorem c7cfg_run1 :
    outcome (run (c7cfg 1) c7sched1) =
      some (some [0, 0], some "multiple errors: a; b") := by
  decide

theorem c7cfg_run2 :
    outcome (run (c7cfg 2) c7sched2) =
      some (some [0, 0], some "multiple errors: b; a") := by
  decide

/-! ## The `BatchError` surface

src/lib_test.go calls `pbatch.IsBatchError` and `pbatch.UnwrapBatchError`,
and README.md documents the `BatchError` type ("this aggregated error
contains all individual errors as a slice"), but the source file defining
them is not under src/, so they are modelled here from the spec's words. -/

/-- Modelled from the spec: the dynamic type of a Go error value once the
repository's missing `BatchError` type exists (the type and its functions
`IsBatchError` and `UnwrapBatchError` are called by src/lib_test.go and
documented in README.md; their defining source file is absent from src/).
An error value is either an ordinary (plain) error carrying only its
message — in particular every `errors.New` value, such as the one
`aggregateErrors` in src/lib.go builds — or a `BatchError`, the spec's
Aggregate Failure: "a composite value wrapping an ordered-insertion
collection of Failure Records". -/
inductive GoErrorVal : Type
  | plain (msg : GoErr)
  | batch (errs : List GoErr)
  deriving DecidableEq

/-- Modelled from the spec: the missing `IsBatchError` (the spec's
`isAggregate`), "a predicate to test whether an arbitrary error value is
this aggregate type", with `isAggregate(nil) == false`; a nil error is
`none`. -/
def IsBatchError : Option GoErrorVal → Bool
  | some (.batch _) => true
  | _ => false

/-- Modelled from the spec: the missing `UnwrapBatchError` (the spec's
`unwrap`), which "returns the constituent failures if `err` is an
AggregateFailure, else a one-element sequence containing `err`". -/
def UnwrapBatchError : GoErrorVal → List GoErrorVal
  | .batch errs => errs.map GoErrorVal.plain
  | e => [e]

/-- The error value `Run` (src/lib.go) returns, seen in the `GoErrorVal`
universe: under `ContinueOnError` the only error `Run` can return is the one
`aggregateErrors` builds with `errors.New`, an ordinary error carrying only
its message — never a `BatchError` value. -/
def runErrVal : Option GoErr → Option GoErrorVal
  | none => none
  | some msg => some (.plain msg)

/-! ## The claims -/

/-- Claim C1: for every `batchSize ≥ 1`, every error policy, and every input
sequence on which the operation succeeds for all items (including the empty
one), a returning run of `Run` yields the result sequence of length
`len(items)` whose slot `i` holds the operation's output for `items[i]`
(input order preserved), together with a nil error. -/
theorem C1_run_all_success (cfg : Cfg T R) (sched : List Choice)
    (hbs : 1 ≤ cfg.batchSize)
    (hall : ∀ x ∈ cfg.items, (cfg.process x).2 = none)
    (res : Option (List R)) (err : Option GoErr)
    (hret : outcome (run cfg sched) = some (res, err)) :
    res = some (cfg.items.map (fun x => (cfg.process x).1)) ∧ err = none := by
  have hfnil : failuresList cfg = [] := by
    rw [failuresList_eq_nil_iff]
    intro j hj
    obtain ⟨it, hit⟩ := lget_exists (l := cfg.items) (i := j) hj
    unfold itemErr
    rw [hit]
    exact hall it (List.get?_mem hit)
  have hgood : goodResults cfg = cfg.items.map (fun x => (cfg.process x).1) := by
    unfold goodResults
    apply List.map_eq_map_iff.mpr
    intro x hx
    simp only [hall x hx]
  cases hstrat : cfg.handleErrorStrategy with
  | true =>
      obtain ⟨hres, herr⟩ := (stop_obs (by rw [hstrat]; rfl) hret).1 hfnil
      exact ⟨by rw [hres, hgood], herr⟩
  | false =>
      obtain ⟨hres, -, l, hperm, herr⟩ := cont_obs (by rw [hstrat]; rfl) hret
      rw [hfnil] at hperm
      have hl : l = [] := (List.Perm.nil_eq hperm.symm).symm
      subst hl
      exact ⟨by rw [hres, hgood], herr⟩

theorem C1_witness :
    (some [1, 4] : Option (List Nat)) =
        some (cw1.items.map (fun x => (cw1.process x).1)) ∧
    (none : Option GoErr) = none :=
  C1_run_all_success cw1 cw1sched (by decide) (by decide) (some [1, 4]) none
    (by decide)

/-- Claim C2 (amended): under `StopOnError`, if the operation failed for at
least one spawned item, `Run` returns a nil result collection — never a
partially filled one — together with the first reported failure verbatim;
failure reports after the first remain queued in the error channel's buffer
(capacity `len(items)`) and are never returned, and every report is a failure
the operation produced for some item. -/
theorem C2_stop_first_reported (cfg : Cfg T R) (sched : List Choice)
    (hstop : cfg.handleErrorStrategy = STOP_ON_ERROR)
    (res : Option (List R)) (err : Option GoErr)
    (hret : outcome (run cfg sched) = some (res, err))
    (hfail : ∃ j, j < cfg.items.length ∧
      isNotSpawnedO ((run cfg sched).tasks.get? j) = false ∧
      itemErr cfg j ≠ none) :
    res = none ∧ (run cfg sched).reported ≠ [] ∧
      err = (run cfg sched).reported.head? ∧
      (run cfg sched).errQ = (run cfg sched).reported.drop 1 ∧
      ∀ e0 ∈ (run cfg sched).reported, ∃ j, j < cfg.items.length ∧
        itemErr cfg j = some e0 := by
  have hinv := inv_run cfg sched
  have hpc := outcome_eq_iff.mp hret
  have hr := hinv.pcOk
  rw [hpc] at hr
  obtain ⟨hcnt, -, hstopPart, -⟩ := hr
  have hperm := hinv.stopPerm hstop
  have hsp := hstopPart hstop
  obtain ⟨j, hj, hnsp, hje⟩ := hfail
  obtain ⟨t, ht⟩ := lget_exists (l := (run cfg sched).tasks) (i := j)
    (by rw [hinv.lenT]; exact hj)
  have hrun : isRunningT t = false := countP_zero_mem hcnt (List.get?_mem ht)
  have hdone : isDoneO ((run cfg sched).tasks.get? j) = true := by
    rw [ht] at hnsp ⊢
    cases t with
    | notSpawned => simp [isNotSpawnedO] at hnsp
    | running => simp [isRunningT] at hrun
    | done => rfl
  obtain ⟨e, hie⟩ : ∃ e, itemErr cfg j = some e := by
    cases hx : itemErr cfg j with
    | none => exact absurd hx hje
    | some e => exact ⟨e, rfl⟩
  have hmem : e ∈ doneFailedErrs cfg (run cfg sched).tasks :=
    mem_dfe_of_done hj hdone hie
  have hrep_ne : (run cfg sched).reported ≠ [] := by
    intro hc
    rw [hc] at hperm
    rw [(List.Perm.nil_eq hperm).symm] at hmem
    cases hmem
  cases hrep : (run cfg sched).reported with
  | nil => exact absurd hrep hrep_ne
  | cons x xs =>
      rw [hrep] at hsp hperm
      obtain ⟨hres, herr, hq⟩ := hsp
      refine ⟨hres, List.cons_ne_nil x xs, ?_, ?_, ?_⟩
      · rw [herr]
        rfl
      · rw [hq]
        rfl
      · intro e0 he0
        exact mem_dfe (hperm.mem_iff.mp he0)

/-- Claim C2 counterexample: with two failing items, both reports are queued
in the error channel buffer (capacity `len(items)`) — the second report is
not dropped — and after `Run` returns the first failure, the second still
sits in the buffer. -/
theorem C2_counterexample :
    (run cw2 [Choice.main, Choice.main, Choice.main, Choice.task 0,
      Choice.task 1]).errQ = ["e0", "e1"] ∧
    outcome (run cw2 cw2sched) = some (none, some "e0") ∧
    (run cw2 cw2sched).errQ = ["e1"] := by
  refine ⟨by decide, by decide, by decide⟩

theorem C2_witness :
    (none : Option (List Nat)) = none ∧ (run cw2 cw2sched).reported ≠ [] ∧
      (some "e0" : Option GoErr) = (run cw2 cw2sched).reported.head? ∧
      (run cw2 cw2sched).errQ = (run cw2 cw2sched).reported.drop 1 ∧
      ∀ e0 ∈ (run cw2 cw2sched).reported, ∃ j, j < cw2.items.length ∧
        itemErr cw2 j = some e0 :=
  C2_stop_first_reported cw2 cw2sched rfl none (some "e0") (by decide)
    ⟨0, by decide, by decide, by decide⟩

/-- Claim C3: under `ContinueOnError` every item is scheduled (every worker
ends done), `Run` returns a result sequence of length `len(items)` in which
every succeeding index holds its computed value and every failing index holds
the zero value, and the returned error is an aggregate of exactly the failing
items' errors when at least one item failed, nil when none failed. -/
theorem C3_continue_fills_slots (cfg : Cfg T R) (sched : List Choice)
    (hcont : cfg.handleErrorStrategy = CONTINUE_ON_ERROR)
    (res : Option (List R)) (err : Option GoErr)
    (hret : outcome (run cfg sched) = some (res, err)) :
    (∀ t ∈ (run cfg sched).tasks, t = TaskStatus.done) ∧
    (∃ rs, res = some rs ∧ rs.length = cfg.items.length ∧
      ∀ j, j < cfg.items.length →
        rs.get? j = some (match itemErr cfg j with
                          | none => itemValD cfg j
                          | some _ => cfg.rzero)) ∧
    (err = none ↔ failuresList cfg = []) ∧
    ∀ e, err = some e →
      ∃ l, l ≠ [] ∧ l.Perm (failuresList cfg) ∧ e = aggregateErrors l := by
  obtain ⟨hres, hdone, l, hperm, herr⟩ := cont_obs hcont hret
  have hinv := inv_run cfg sched
  refine ⟨?_, ?_, ?_, ?_⟩
  · intro t hmem
    obtain ⟨k, hk⟩ := List.mem_iff_get?.mp hmem
    have hkN : k < cfg.items.length := by
      have := lget_lt hk
      rw [hinv.lenT] at this
      exact this
    have hdk := hdone k hkN
    rw [hk] at hdk
    cases t with
    | notSpawned => simp [isDoneO] at hdk
    | running => simp [isDoneO] at hdk
    | done => rfl
  · refine ⟨goodResults cfg, hres, by unfold goodResults; rw [List.length_map], ?_⟩
    intro j hj
    obtain ⟨it, hit⟩ := lget_exists (l := cfg.items) (i := j) hj
    have hie : itemErr cfg j = (cfg.process it).2 := by unfold itemErr; rw [hit]
    have hiv : itemValD cfg j = (cfg.process it).1 := by unfold itemValD; rw [hit]
    unfold goodResults
    rw [List.get?_map, hit, Option.map_some', hie, hiv]
  · constructor
    · intro hnone
      cases hl : l with
      | nil =>
          rw [hl] at hperm
          exact (List.Perm.nil_eq hperm).symm
      | cons a as =>
          rw [hl] at herr
          rw [hnone] at herr
          cases herr
    · intro hfnil
      rw [hfnil] at hperm
      have hl : l = [] := (List.Perm.nil_eq hperm.symm).symm
      rw [hl] at herr
      exact herr
  · intro e he
    cases hl : l with
    | nil =>
        rw [hl] at herr
        rw [he] at herr
        cases herr
    | cons a as =>
        rw [hl] at herr hperm
        rw [he] at herr
        have he2 : e = aggregateErrors (a :: as) := by
          injection herr
        exact ⟨a :: as, List.cons_ne_nil a as, hperm, he2⟩

theorem C3_witness :
    (∀ t ∈ (run cw3 cw3sched).tasks, t = TaskStatus.done) ∧
    (∃ rs, (some [0, 4] : Option (List Nat)) = some rs ∧
      rs.length = cw3.items.length ∧
      ∀ j, j < cw3.items.length →
        rs.get? j = some (match itemErr cw3 j with
                          | none => itemValD cw3 j
                          | some _ => cw3.rzero)) ∧
    ((some "multiple errors: a" : Option GoErr) = none ↔
      failuresList cw3 = []) ∧
    ∀ e, (some "multiple errors: a" : Option GoErr) = some e →
      ∃ l, l ≠ [] ∧ l.Perm (failuresList cw3) ∧ e = aggregateErrors l :=
  C3_continue_fills_slots cw3 cw3sched rfl (some [0, 4])
    (some "multiple errors: a") (by decide)

/-- Claim C4: at no instant during any run of `Run` are more than `batchSize`
workers concurrently in flight: the semaphore bounds the number of
simultaneously running workers by `batchSize` in every reachable state. -/
theorem C4_bounded_concurrency (cfg : Cfg T R) (sched : List Choice) :
    (run cfg sched).tasks.countP isRunningT ≤ cfg.batchSize := by
  have hinv := inv_run cfg sched
  rw [← hinv.semEq]
  exact hinv.semLe

/-- Claim C5: on the spec-modelled `BatchError` surface, `isAggregate(nil)`
is false, unwrap of a non-aggregate error is the one-element sequence
containing that error, and unwrap of a `BatchError` yields exactly its
constituent failures.  But on the error `Run` actually returns under
`ContinueOnError` — here at the scenario of `TestBatchErrorAggregation`
(src/lib_test.go), with failing subset of size 3 — the `|F|` bullet fails:
`Run` returns the plain `errors.New` value built by `aggregateErrors`
(src/lib.go), on which `IsBatchError` is false and `UnwrapBatchError` yields
a single element, not `|F| = 3`: the code contradicts its own test and
README documentation. -/
theorem C5_surface_vs_code :
    IsBatchError none = false ∧
    (∀ m : GoErr, UnwrapBatchError (GoErrorVal.plain m) = [GoErrorVal.plain m]) ∧
    (∀ l : List GoErr,
      (UnwrapBatchError (GoErrorVal.batch l)).length = l.length) ∧
    outcome (run c5test c5testSched) = some (some [0, 2, 0, 4, 0],
      some ("multiple errors: error processing item 1; " ++
        "error processing item 3; error processing item 5")) ∧
    IsBatchError (runErrVal (some ("multiple errors: error processing item 1; " ++
      "error processing item 3; error processing item 5"))) = false ∧
    (UnwrapBatchError (GoErrorVal.plain ("multiple errors: error processing item 1; " ++
      "error processing item 3; error processing item 5"))).length = 1 ∧
    (failuresList c5test).length = 3 := by
  refine ⟨rfl, fun m => rfl, fun l => ?_, by decide, rfl, rfl, by decide⟩
  simp [UnwrapBatchError]

/-- Claim C6: for every input, batch size, per-item operation and schedule,
`Process` returns exactly the error component of `Run` invoked with
`STOP_ON_ERROR` and the wrapper that discards the successful-output type and
keeps only the operation's error; `Process` adds nothing beyond this. -/
theorem C6_process_refines_run (items : List T) (batchSize : Nat)
    (p : T → Option GoErr) (sched : List Choice) :
    ProcessRun items batchSize p sched =
      (match outcome (run (⟨items, batchSize, STOP_ON_ERROR,
          fun item => ((), p item), ()⟩ : Cfg T Unit) sched) with
       | some (_, err) => err
       | none => none) := rfl

/-- Claim C7 counterexample: same items, operation and policy; `batchSize = 1`
versus `batchSize = 2 ≥ len(items)`.  Both runs return the same result
content but different error values: the two failure messages are joined in
different orders. -/
theorem C7_counterexample :
    outcome (run (c7cfg 1) c7sched1) =
      some (some [0, 0], some "multiple errors: a; b") ∧
    outcome (run (c7cfg 2) c7sched2) =
      some (some [0, 0], some "multiple errors: b; a") ∧
    (c7cfg 2).items.length ≤ 2 ∧
    (some "multiple errors: a; b" : Option GoErr) ≠
      some "multiple errors: b; a" :=
  ⟨c7cfg_run1, c7cfg_run2, by decide, by decide⟩

/-- Claim C7 (amended): for any policy, input sequence and operation, a run
with `batchSize = 1` and a run with `batchSize ≥ len(items)` produce identical
result content; the error outcome is also identical whenever at most one item
fails (with two or more failures the returned errors may differ). -/
theorem C7_amended_results_agree (items : List T) (strat : errorHandler)
    (p : T → R × Option GoErr) (z : R) (bs1 bs2 : Nat)
    (hbs1 : bs1 = 1) (hbs2 : items.length ≤ bs2)
    (s1 s2 : List Choice) (res1 res2 : Option (List R)) (err1 err2 : Option GoErr)
    (h1 : outcome (run ⟨items, bs1, strat, p, z⟩ s1) = some (res1, err1))
    (h2 : outcome (run ⟨items, bs2, strat, p, z⟩ s2) = some (res2, err2)) :
    res1 = res2 ∧
    ((failuresList (⟨items, bs1, strat, p, z⟩ : Cfg T R)).length ≤ 1 →
      err1 = err2) := by
  have hsameF : failuresList (⟨items, bs2, strat, p, z⟩ : Cfg T R) =
      failuresList (⟨items, bs1, strat, p, z⟩ : Cfg T R) := rfl
  cases strat with
  | true =>
      by_cases hf : failuresList (⟨items, bs1, true, p, z⟩ : Cfg T R) = []
      · obtain ⟨hr1, he1⟩ := (stop_obs rfl h1).1 hf
        obtain ⟨hr2, he2⟩ := (stop_obs rfl h2).1 (by rw [hsameF]; exact hf)
        refine ⟨by rw [hr1, hr2]; rfl, ?_⟩
        intro _
        rw [he1, he2]
      · obtain ⟨hr1, e1, he1, hm1⟩ := (stop_obs rfl h1).2 hf
        obtain ⟨hr2, e2, he2, hm2⟩ := (stop_obs rfl h2).2
          (by rw [hsameF]; exact hf)
        refine ⟨by rw [hr1, hr2], ?_⟩

        intro hlen
        have h1e : failuresList (⟨items, bs1, true, p, z⟩ : Cfg T R) = [e1] :=
          eq_singleton_of_mem_len_le hm1 hlen
        have h2e : failuresList (⟨items, bs1, true, p, z⟩ : Cfg T R) = [e2] :=
          eq_singleton_of_mem_len_le (by rw [hsameF] at hm2; exact hm2) hlen
        rw [h1e] at h2e
        injection h2e with hx _
        rw [he1, he2, hx]
  | false =>
      obtain ⟨hr1, -, l1, hp1, he1⟩ := cont_obs rfl h1
      obtain ⟨hr2, -, l2, hp2, he2⟩ := cont_obs rfl h2
      rw [hsameF] at hp2
      refine ⟨by rw [hr1, hr2]; rfl, ?_⟩
      intro hlen
      cases hfl : failuresList (⟨items, bs1, false, p, z⟩ : Cfg T R) with
      | nil =>
          rw [hfl] at hp1 hp2
          have hl1 : l1 = [] := (List.Perm.nil_eq hp1.symm).symm
          have hl2 : l2 = [] := (List.Perm.nil_eq hp2.symm).symm
          rw [hl1] at he1
          rw [hl2] at he2
          rw [he1, he2]
      | cons a as =>
          have has : as = [] := by
            rw [hfl] at hlen
            simp at hlen
            exact hlen
          subst has
          rw [hfl] at hp1 hp2
          have hl1 : l1 = [a] := List.perm_singleton.mp hp1
          have hl2 : l2 = [a] := List.perm_singleton.mp hp2
          rw [hl1] at he1
          rw [hl2] at he2
          rw [he1, he2]

theorem C7_witness :
    (some [0] : Option (List Nat)) = some [0] ∧
    ((failuresList (⟨[7], 1, CONTINUE_ON_ERROR, fun _ => (0, some "x"), 0⟩ :
        Cfg Nat Nat)).length ≤ 1 →
      (some "multiple errors: x" : Option GoErr) = some "multiple errors: x") :=
  C7_amended_results_agree [7] CONTINUE_ON_ERROR (fun _ => (0, some "x")) 0 1 1
    rfl (by decide) [.main, .task 0, .main, .main] [.main, .task 0, .main, .main]
    (some [0]) (some [0]) (some "multiple errors: x") (some "multiple errors: x")
    (by decide) (by decide)

/-- Claim C8: once the scheduling loop has observed a failure (the early-exit
path under `StopOnError`), no further items are ever scheduled, whatever the
rest of the schedule does; and on every exit path, every already-spawned
worker is done by the time `Run` returns (unconditional join-all). -/
theorem C8_early_stop_join (cfg : Cfg T R) (p q : List Choice) (e : GoErr)
    (sched : List Choice) (res : Option (List R)) (err : Option GoErr)
    (hpc : (run cfg p).pc = MainPC.earlyWait e)
    (hret : outcome (run cfg sched) = some (res, err)) :
    scheduledCount (run cfg (p ++ q)) = scheduledCount (run cfg p) ∧
    ∀ t ∈ (run cfg sched).tasks, t ≠ TaskStatus.notSpawned →
      t = TaskStatus.done := by
  constructor
  · rw [run_append]
    exact (drained_runFrom (Or.inl ⟨e, hpc⟩) q).2
  · intro t hmem hns
    have hinv := inv_run cfg sched
    have hr := hinv.pcOk
    rw [outcome_eq_iff.mp hret] at hr
    obtain ⟨hcnt, -, -, -⟩ := hr
    have hrun := countP_zero_mem hcnt hmem
    cases t with
    | notSpawned => exact absurd rfl hns
    | running => simp [isRunningT] at hrun
    | done => rfl

theorem C8_witness :
    scheduledCount (run cw2 (cw8p ++ cw8q)) = scheduledCount (run cw2 cw8p) ∧
    ∀ t ∈ (run cw2 cw2sched).tasks, t ≠ TaskStatus.notSpawned →
      t = TaskStatus.done :=
  C8_early_stop_join cw2 cw8p cw8q "e0" cw2sched none (some "e0")
    (by decide) (by decide)

/-- Claim C9 (amended): `Run` returns normally only when `batchSize ≥ 1`, or
when `batchSize = 0` with an empty input (which returns empty results and a
nil error): every negative batch size panics at semaphore channel creation
for every input including the empty one, and `batchSize = 0` with a non-empty
input never returns because the first limiter acquisition blocks forever. -/
theorem C9_amended_guard :
    (∀ (items : List T) (bs : Int) (strat : errorHandler)
        (p : T → R × Option GoErr) (z : R), bs < 0 →
        RunStart items bs strat p z = none) ∧
    (∀ (cfg : Cfg T R), cfg.batchSize = 0 → cfg.items ≠ [] →
        ∀ sched, outcome (run cfg sched) = none) ∧
    (∀ (cfg : Cfg T R), cfg.batchSize = 0 → cfg.items = [] →
        outcome (run cfg [Choice.main, Choice.main]) = some (some [], none)) := by
  refine ⟨?_, ?_, ?_⟩
  · intro items bs strat p z hneg
    unfold RunStart
    rw [if_pos hneg]
  · intro cfg hbs hne sched
    rw [run_stuck_zero hbs hne sched]
    rfl
  · intro cfg hbs hitems
    exact run_empty_items hitems

/-- Claim C9 counterexample: with `batchSize = 0` and an empty input, `Run`
returns normally (empty results, nil error) even though `batchSize < 1`. -/
theorem C9_counterexample :
    c9empty.batchSize = 0 ∧
    outcome (run c9empty [Choice.main, Choice.main]) =
      some (some ([] : List Nat), none) :=
  ⟨rfl, by decide⟩

theorem C9_witness :
    RunStart [1] (-1 : Int) STOP_ON_ERROR
      (fun n : Nat => (n, (none : Option GoErr))) 0 = none ∧
    outcome (run c9stuck [Choice.main, Choice.task 0, Choice.main]) = none ∧
    outcome (run c9empty [Choice.main, Choice.main]) =
      some (some ([] : List Nat), none) :=
  ⟨(@C9_amended_guard Nat Nat).1 [1] (-1) STOP_ON_ERROR _ 0 (by decide),
   (@C9_amended_guard Nat Nat).2.1 c9stuck rfl (by decide)
     [Choice.main, Choice.task 0, Choice.main],
   (@C9_amended_guard Nat Nat).2.2 c9empty rfl rfl⟩

/-- Claim C10: under `ContinueOnError` with at least one failure, the returned
error is a plain flat value whose message is exactly the string
"multiple errors: " followed by the constituent failures' messages joined by
"; " — also when exactly one item failed — and (errors being modelled by
their message string) it carries no structured collection of the constituent
errors. -/
theorem C10_flat_message (cfg : Cfg T R) (sched : List Choice)
    (hcont : cfg.handleErrorStrategy = CONTINUE_ON_ERROR)
    (res : Option (List R)) (err : Option GoErr)
    (hret : outcome (run cfg sched) = some (res, err))
    (hfail : failuresList cfg ≠ []) :
    ∃ l, l ≠ [] ∧ l.Perm (failuresList cfg) ∧
      err = some ("multiple errors: " ++ String.intercalate "; " l) ∧
      ∀ e0, failuresList cfg = [e0] →
        err = some ("multiple errors: " ++ e0) := by
  obtain ⟨-, -, l, hperm, herr⟩ := cont_obs hcont hret
  cases hl : l with
  | nil =>
      rw [hl] at hperm
      exact absurd (List.Perm.nil_eq hperm).symm hfail
  | cons a as =>
      rw [hl] at hperm herr
      refine ⟨a :: as, List.cons_ne_nil a as, hperm, herr, ?_⟩
      · intro e0 hfe
        rw [hfe] at hperm
        have hsing : a :: as = [e0] := List.perm_singleton.mp hperm
        rw [hsing] at herr
        rw [herr]
        rw [show aggregateErrors [e0] = "multiple errors: " ++ e0 from by
          unfold aggregateErrors
          rw [intercalate_singleton]]

theorem C10_witness :
    ∃ l, l ≠ [] ∧ l.Perm (failuresList cw3) ∧
      (some "multiple errors: a" : Option GoErr) =
        some ("multiple errors: " ++ String.intercalate "; " l) ∧
      ∀ e0, failuresList cw3 = [e0] →
        (some "multiple errors: a" : Option GoErr) =
          some ("multiple errors: " ++ e0) :=
  C10_flat_message cw3 cw3sched rfl (some [0, 4]) (some "multiple errors: a")
    (by decide) (by decide)

end PBatch
